import Mathlib

/-!
Verification of the aggregation / sampling / rendering core of
`src/automation_jira.py` (Jira daily audit mailer).

The embedding models the data the core manipulates:

* A Jira issue record is a JSON object; the core reads `issue["key"]`,
  `issue["fields"]["summary"]` and `issue["fields"]["assignee"]`
  (with `assignee["accountId"]` and `assignee.get("displayName")`).
  Optional / possibly-missing JSON fields become `Option`; a field that
  is absent (or JSON `null`) is `none`.  Fields fetched but never read
  by the core (`reporter`, `resolutiondate`) are not modelled.
* Python dicts iterate in insertion order, so a dict is embedded as an
  association list; `dict.setdefault(k, []).append(v)` becomes `upsert`.
* `random.sample(population, k)` is modelled by an oracle-driven
  selection without replacement: the oracle (a function `Nat → Nat`)
  abstracts the pseudo-random source; at step `i` the element at index
  `oracle i % remaining` of the remaining pool is taken.  Exactly like
  `random.sample`, the model fails (returns `none`, i.e. the Python
  call raises `ValueError`) iff `¬ (0 ≤ k ≤ len(population))`.
* A function that can raise returns `Option`; `none` means an exception
  escapes (`KeyError`, `ValueError`).
* `print`-based output is modelled by the text produced: the console
  renderer returns the list of printed lines, the statistics collector
  returns the pair of counts that it prints.
* In the HTML template literals, the inert inter-tag whitespace and
  indentation of the Python triple-quoted f-strings is condensed; every
  tag, attribute, literal text and interpolated expression is kept, in
  source order.
-/

namespace AutomationJira

/-- The `assignee` JSON object of an issue.  `accountId` is `Option`
because the source accesses it with `assignee["accountId"]`, which
raises `KeyError` when the field is absent; `displayName` is read with
`assignee.get("displayName", ...)`. -/
structure Assignee where
  accountId : Option String
  displayName : Option String
deriving DecidableEq

/-- The `fields` JSON object of an issue (the members the core reads). -/
structure Fields where
  assignee : Option Assignee
  summary : Option String
deriving DecidableEq

/-- An issue record as consumed by the core: `issue.get("key", ...)` and
`issue.get("fields", {})`. -/
structure Issue where
  key : Option String
  fields : Option Fields
deriving DecidableEq

/-- `issue.get("fields", {})`: a missing `fields` object degrades to the
empty dict, whose `get`s all give the defaults. -/
def fieldsOf (i : Issue) : Fields :=
  i.fields.getD ⟨none, none⟩

/-- Truthiness of `i.get("fields", {}).get("assignee")`. -/
def hasAssignee (i : Issue) : Bool :=
  (fieldsOf i).assignee.isSome

/-- `summarize_assignee_stats` (src lines 156-159): counts issues with an
assignee and the rest; the source prints
`[INFO] Con assignee: {with} | Sin assignee: {without}` — the pair of
printed counts is the function's observable output. -/
def summarize_assignee_stats (issues : List Issue) : Nat × Nat :=
  let with_assignee := issues.countP hasAssignee
  let without_assignee := issues.length - with_assignee
  (with_assignee, without_assignee)

/-- An owner identity: `(accountId, displayName)` or the sentinel
`("UNASSIGNED", "(Sin asignar)")`. -/
abbrev OwnerKey := String × String

/-- Group / selection mappings keep Python-dict insertion order. -/
abbrev Groups := List (OwnerKey × List Issue)

/-- `assignee.get("displayName", "Desconocido")`. -/
def resolvedName (a : Assignee) : String :=
  a.displayName.getD "Desconocido"

/-- The bucket key computed for one issue in `group_by_assignee`
(src lines 170-178): the sentinel for a missing assignee, otherwise
`(assignee["accountId"], assignee.get("displayName", "Desconocido"))`;
`none` when `assignee["accountId"]` raises `KeyError`. -/
def bucketKey (i : Issue) : Option OwnerKey :=
  match (fieldsOf i).assignee with
  | none => some ("UNASSIGNED", "(Sin asignar)")
  | some a =>
    match a.accountId with
    | none => none
    | some acct => some (acct, resolvedName a)

/-- `groups.setdefault(key, []).append(issue)` on an insertion-ordered
dict: append to the existing bucket, or add a new bucket at the end. -/
def upsert (gs : Groups) (k : OwnerKey) (i : Issue) : Groups :=
  match gs with
  | [] => [(k, [i])]
  | (k', xs) :: rest =>
    if k' = k then (k', xs ++ [i]) :: rest
    else (k', xs) :: upsert rest k i

/-- Loop body of `group_by_assignee`, threading the accumulated dict. -/
def groupAux (acc : Groups) : List Issue → Option Groups
  | [] => some acc
  | i :: rest =>
    match bucketKey i with
    | none => none
    | some k => groupAux (upsert acc k i) rest

/-- `group_by_assignee` (src lines 162-179).  `none` models the
`KeyError` raised when a present assignee lacks `accountId`. -/
def group_by_assignee (issues : List Issue) : Option Groups :=
  groupAux [] issues

/-- One step of sampling without replacement: `n` elements are drawn
from `items`, the oracle choosing the index of each draw among the
remaining pool.  Faithful abstraction of `random.sample`'s selection
(each call removes one element of the pool; any outcome of the real
generator corresponds to some oracle). -/
def sampleAux (oracle : Nat → Nat) : Nat → Nat → List Issue → List Issue
  | _, 0, _ => []
  | _, _ + 1, [] => []
  | step, n + 1, x :: xs =>
    let l := x :: xs
    let j := oracle step % l.length
    l.get ⟨j, Nat.mod_lt _ (Nat.succ_pos _)⟩ ::
      sampleAux oracle (step + 1) n (l.eraseIdx j)

/-- `random.sample(items, k)`: raises `ValueError` (`none`) unless
`0 ≤ k ≤ len(items)`, otherwise draws `k` elements without
replacement. -/
def randomSample (oracle : Nat → Nat) (items : List Issue) (k : Int) :
    Option (List Issue) :=
  if k < 0 ∨ (items.length : Int) < k then none
  else some (sampleAux oracle 0 k.toNat items)

/-- Loop of `pick_random_per_analyst`; the group at position `g` uses
the random stream `oracle g`. -/
def pickAux (oracle : Nat → Nat → Nat) (g : Nat) (per_analyst : Int) :
    Groups → Option Groups
  | [] => some []
  | (key, items) :: rest =>
    match randomSample (oracle g) items (min per_analyst (items.length : Int)) with
    | none => none
    | some chosen =>
      (pickAux oracle (g + 1) per_analyst rest).map (fun sel => (key, chosen) :: sel)

/-- `pick_random_per_analyst` (src lines 182-191): for every group, draw
`random.sample(items, k=min(per_analyst, len(items)))`. -/
def pick_random_per_analyst (oracle : Nat → Nat → Nat) (groups : Groups)
    (per_analyst : Int) : Option Groups :=
  pickAux oracle 0 per_analyst groups

/-- Per-character replacement of `html.escape(s)` (quote=True): `&`,
`<`, `>`, the double quote (code 34) and the apostrophe (code 39) become
entities.  `html.escape` applies `str.replace` for each of these in an
order that never rewrites an already-produced entity, so it equals this
character-wise map. -/
def escapeChar (c : Char) : String :=
  if c = '&' then "&amp;"
  else if c = '<' then "&lt;"
  else if c = '>' then "&gt;"
  else if c.toNat = 34 then "&quot;"
  else if c.toNat = 39 then "&#x27;"
  else String.singleton c

/-- `html.escape` as used at src lines 231, 241, 259, 269-273. -/
def escape (s : String) : String :=
  String.join (s.data.map escapeChar)

/-- Palette constant `bg` (src line 208). -/
def bg : String := "#faf6fa"

/-- Palette constant `card_bg`. -/
def card_bg : String := "#ffffff"

/-- Palette constant `text`. -/
def text : String := "#0f172a"

/-- Palette constant `text_muted`. -/
def text_muted : String := "#334155"

/-- Palette constant `border`. -/
def border : String := "#eaeef2"

/-- Palette constant `border_soft`. -/
def border_soft : String := "#e5e7eb"

/-- Palette constant `link`. -/
def link : String := "#0b57d0"

/-- The leading template of `build_email_html` (src lines 204-246):
doctype, head, hidden escaped preheader, card opening, escaped date
header and total count. -/
def htmlHeader (date_str : String) (total_issues : Nat) : String :=
  let preheader := "Total de incidentes resueltos: " ++ toString total_issues ++ " — " ++ date_str
  "<!DOCTYPE html>\n<html lang=\"es\">\n<head>\n" ++
  "<meta charset=\"UTF-8\" />\n" ++
  "<meta name=\"x-apple-disable-message-reformatting\" />\n" ++
  "<meta name=\"color-scheme\" content=\"light only\" />\n" ++
  "<title>Auditoría de incidentes</title>\n</head>\n" ++
  "<body style=\"margin:0; padding:0; background-color:" ++ bg ++ ";\">\n" ++
  "<!-- preheader (oculto) -->\n" ++
  "<div style=\"display:none; overflow:hidden; line-height:1px; opacity:0; max-height:0; max-width:0; mso-hide:all;\">\n" ++
  escape preheader ++ "\n</div>\n" ++
  "<table role=\"presentation\" cellpadding=\"0\" cellspacing=\"0\" border=\"0\" width=\"100%\" style=\"background-color:" ++ bg ++ ";\">\n<tr>\n" ++
  "<td align=\"center\" style=\"padding:24px;\">\n" ++
  "<table role=\"presentation\" cellpadding=\"0\" cellspacing=\"0\" border=\"0\" width=\"600\" style=\"width:600px; max-width:600px; background:" ++ card_bg ++ "; border:1px solid " ++ border ++ "; border-radius:8px;\">\n<tr>\n" ++
  "<td style=\"padding:24px; font-family:-apple-system,Segoe UI,Roboto,Arial,Helvetica,sans-serif; color:" ++ text ++ "; font-size:14px; line-height:1.6;\">\n" ++
  "<h2 style=\"margin:0 0 8px 0; font-size:20px; line-height:1.3; color:" ++ text ++ ";\">\n" ++
  "Auditoría de incidentes resueltos el " ++ escape date_str ++ "\n</h2>\n" ++
  "<p style=\"margin:0 0 16px 0; color:" ++ text_muted ++ ";\">\n" ++
  "Total de incidentes resueltos: <strong style=\"color:" ++ text ++ ";\">" ++ toString total_issues ++ "</strong>\n</p>\n"

/-- The message inserted when the selection is empty (src lines 249-254). -/
def noSelectionMsg : String :=
  "<p style=\"margin:0; color:" ++ text_muted ++ ";\">\n" ++
  "<em>No se encontraron incidentes con analista asignado. Es posible que los incidentes estén sin asignar o que el filtro no aplique.</em>\n</p>\n"

/-- `(assignee or {}).get("displayName") or "(Sin asignar)"` (src lines
273 and 377): missing assignee, missing display name and the empty
(falsy) display name all degrade to the placeholder. -/
def issueAssigneeName (f : Fields) : String :=
  match f.assignee with
  | none => "(Sin asignar)"
  | some a =>
    match a.displayName with
    | none => "(Sin asignar)"
    | some s => if s = "" then "(Sin asignar)" else s

/-- One `<li>` of the HTML report (src lines 268-282).  Note the source
escapes the key first and builds the URL from the escaped key. -/
def issueLineHtml (base_url : String) (issue : Issue) : String :=
  let key := escape (issue.key.getD "(sin clave)")
  let fields := fieldsOf issue
  let summary := escape (fields.summary.getD "(sin resumen)")
  let assignee_name := escape (issueAssigneeName fields)
  let url := base_url ++ "/browse/" ++ key
  "<li style=\"margin:0 0 6px 0;\">\n" ++
  "<a href=\"" ++ url ++ "\" style=\"color:" ++ link ++ "; text-decoration:none;\">" ++ key ++ "</a>\n" ++
  "&nbsp;—&nbsp;" ++ summary ++ "\n" ++
  "&nbsp;—&nbsp;<strong style=\"color:" ++ text ++ ";\">" ++ assignee_name ++ "</strong>\n</li>\n"

/-- One per-owner block of the HTML report (src lines 258-286):
`escape(name or "(Sin asignar)")`, the count, and the ordered list of
issue lines. -/
def ownerBlockHtml (base_url : String) (name : String) (items : List Issue) : String :=
  let safe_name := escape (if name = "" then "(Sin asignar)" else name)
  let count := items.length
  "<div style=\"margin:16px 0; padding:12px; border:1px solid " ++ border_soft ++ "; border-radius:8px;\">\n" ++
  "<h3 style=\"margin:0 0 8px 0; font-size:16px; color:" ++ text ++ ";\">\n" ++
  safe_name ++ " <span style=\"color:" ++ text_muted ++ ";\">(" ++ toString count ++ ")</span>\n</h3>\n" ++
  "<ol style=\"margin:0; padding-left:20px;\">\n" ++
  String.join (items.map (issueLineHtml base_url)) ++
  "</ol>\n</div>\n"

/-- The closing template of `build_email_html` (src lines 289-302). -/
def htmlFooter : String :=
  "<p style=\"margin:16px 0 0 0; color:" ++ text_muted ++ "; font-size:12px;\">\n" ++
  "Reporte generado automáticamente. No responder a este correo.\n</p>\n" ++
  "</td>\n</tr>\n</table>\n<div style=\"height:24px; line-height:24px;\">&nbsp;</div>\n</td>\n</tr>\n</table>\n</body>\n</html>\n"

/-- `sorted(selection.items(), key=lambda kv: kv[0][1].lower())` as it
appears in `build_email_html` (src line 258): stable sort by the
lower-cased display name. -/
def sortSelectionHtml (selection : Groups) : Groups :=
  selection.mergeSort (fun kv1 kv2 => decide (kv1.1.2.toLower ≤ kv2.1.2.toLower))

/-- `sorted(selection.items(), key=lambda kv: kv[0][1].lower())` as it
appears in `print_console_summary` (src line 370). -/
def sortSelectionConsole (selection : Groups) : Groups :=
  selection.mergeSort (fun kv1 kv2 => decide (kv1.1.2.toLower ≤ kv2.1.2.toLower))

/-- `build_email_html` (src lines 200-304).  `date_str` is
`target_date.isoformat()`; date handling itself is an external
collaborator. -/
def build_email_html (base_url : String) (date_str : String)
    (selection : Groups) (total_issues : Nat) : String :=
  htmlHeader date_str total_issues ++
  (if selection.isEmpty then noSelectionMsg else "") ++
  String.join ((sortSelectionHtml selection).map
    (fun kv => ownerBlockHtml base_url kv.1.2 kv.2)) ++
  htmlFooter

/-- `_short` (src lines 356-360): truncate a summary to 100 characters,
ending with `...`; a missing summary becomes `(sin resumen)`. -/
def shortSummary : Option String → String
  | none => "(sin resumen)"
  | some s => if s.length ≤ 100 then s else s.take 97 ++ "..."

/-- One console line per issue (src lines 372-379): raw (unescaped)
key, truncated summary, per-issue owner name, URL. -/
def consoleIssueLine (base_url : String) (issue : Issue) : String :=
  let key := issue.key.getD "(sin clave)"
  let fields := fieldsOf issue
  let summary := shortSummary fields.summary
  let assignee_name := issueAssigneeName fields
  let url := base_url ++ "/browse/" ++ key
  "  - " ++ key ++ " — " ++ summary ++ " — Resp.: " ++ assignee_name ++ " — " ++ url

/-- `print_console_summary` (src lines 349-379), as the list of printed
lines (a leading `\n` inside a `print` becomes an empty line). -/
def print_console_summary (base_url : String) (selection : Groups)
    (total_issues : Nat) : List String :=
  ["", "=== Resumen de auditoría (consola) ===",
   "Total de issues resueltos: " ++ toString total_issues] ++
  if selection.isEmpty then
    ["No se encontraron issues con analista asignado para el rango."]
  else
    List.flatten ((sortSelectionConsole selection).map (fun kv =>
      ["", kv.1.2 ++ " (" ++ toString kv.2.length ++ "):"] ++
      kv.2.map (consoleIssueLine base_url)))

/-- `hay` contains `needle` as a contiguous substring. -/
def strContains (hay needle : String) : Prop :=
  ∃ p q : String, hay = p ++ (needle ++ q)

/-- Issue owned by account `A1` with display name `Ana`. -/
def issueAna : Issue := ⟨some "K-1", some ⟨some ⟨some "A1", some "Ana"⟩, some "uno"⟩⟩

/-- Issue owned by account `A1` whose assignee has no display name. -/
def issueNoName : Issue := ⟨some "K-2", some ⟨some ⟨some "A1", none⟩, some "dos"⟩⟩

/-- Issue with no assignee. -/
def issueUnassigned : Issue := ⟨some "K-3", some ⟨none, none⟩⟩

/-- Issue whose assignee object lacks `accountId`. -/
def issueNoAccountId : Issue := ⟨some "K-4", some ⟨some ⟨none, some "X"⟩, none⟩⟩

/-- Issue whose summary carries markup-significant characters. -/
def issueMarkup : Issue := ⟨some "K-5", some ⟨some ⟨some "A1", some "Ana"⟩, some "<b>&x"⟩⟩

/-- Issue with no key and no fields object at all. -/
def issueBare : Issue := ⟨none, none⟩

/-- An issue's assignee object, when present, carries its `accountId`
(the shape the Jira interface guarantees; its absence is what makes
`group_by_assignee` raise `KeyError`). -/
def assigneeWellFormed (i : Issue) : Bool :=
  match (fieldsOf i).assignee with
  | none => true
  | some a => a.accountId.isSome

/-- A random-source oracle that always answers 0. -/
def oracleZero : Nat → Nat → Nat := fun _ _ => 0

/-- A random-source oracle that always answers 1. -/
def oracleOne : Nat → Nat → Nat := fun _ _ => 1

end AutomationJira

namespace AutomationJira

theorem countP_add_countP_not (l : List Issue) (p : Issue → Bool) :
    l.countP p + l.countP (fun a => !p a) = l.length := by
  induction l with
  | nil => simp
  | cons x xs ih =>
    by_cases h : p x <;> simp [List.countP_cons, h] <;> omega

theorem sampleAux_length (oracle : Nat → Nat) :
    ∀ (n step : Nat) (l : List Issue),
      (sampleAux oracle step n l).length = min n l.length := by
  intro n
  induction n with
  | zero => intro step l; simp [sampleAux]
  | succ n ih =>
    intro step l
    match l with
    | [] => simp [sampleAux]
    | x :: xs =>
      simp only [sampleAux, List.length_cons]
      rw [ih]
      rw [List.length_eraseIdx]
      have hj : oracle step % (x :: xs).length < (x :: xs).length :=
        Nat.mod_lt _ (Nat.succ_pos _)
      simp only [List.length_cons] at hj
      simp [hj]
      omega

theorem sampleAux_mem (oracle : Nat → Nat) :
    ∀ (n step : Nat) (l : List Issue) (x : Issue),
      x ∈ sampleAux oracle step n l → x ∈ l := by
  intro n
  induction n with
  | zero => intro step l x h; simp [sampleAux] at h
  | succ n ih =>
    intro step l x h
    match l with
    | [] => simp [sampleAux] at h
    | y :: ys =>
      simp only [sampleAux, List.mem_cons] at h
      rcases h with h | h
      · rw [h]; exact List.get_mem _ _ _
      · exact (List.eraseIdx_sublist (y :: ys) _).mem (ih _ _ _ h)

theorem perm_get_cons_eraseIdx :
    ∀ (l : List Issue) (j : Fin l.length), l.Perm (l.get j :: l.eraseIdx j) := by
  intro l
  induction l with
  | nil => intro j; exact absurd j.2 (by simp)
  | cons x xs ih =>
    rintro ⟨m, hm⟩
    cases m with
    | zero => simp [List.eraseIdx]
    | succ m =>
      have hm' : m < xs.length := by simpa using hm
      have h1 : xs.Perm (xs.get ⟨m, hm'⟩ :: xs.eraseIdx m) := ih ⟨m, hm'⟩
      have h2 := (h1.cons x).trans
        (List.Perm.swap (xs.get ⟨m, hm'⟩) x (xs.eraseIdx m))
      exact h2

theorem sampleAux_perm (oracle : Nat → Nat) :
    ∀ (n step : Nat) (l : List Issue), l.length ≤ n →
      (sampleAux oracle step n l).Perm l := by
  intro n
  induction n with
  | zero =>
    intro step l h
    have : l = [] := List.length_eq_zero.mp (Nat.le_zero.mp h)
    simp [this, sampleAux]
  | succ n ih =>
    intro step l h
    match l with
    | [] => simp [sampleAux]
    | x :: xs =>
      simp only [sampleAux]
      have hj : oracle step % (x :: xs).length < (x :: xs).length :=
        Nat.mod_lt _ (Nat.succ_pos _)
      have hlen : ((x :: xs).eraseIdx (oracle step % (x :: xs).length)).length ≤ n := by
        rw [List.length_eraseIdx]
        simp only [hj, if_true]
        simpa using Nat.le_of_succ_le_succ (by simpa using h)
      have hperm := ih (step + 1) _ hlen
      exact (hperm.cons _).trans (perm_get_cons_eraseIdx (x :: xs) ⟨_, hj⟩).symm

theorem randomSample_min_eq (oracle : Nat → Nat) (items : List Issue) (k : Int)
    (hk : 0 ≤ k) :
    randomSample oracle items (min k (items.length : Int)) =
      some (sampleAux oracle 0 (min k (items.length : Int)).toNat items) := by
  unfold randomSample
  rw [if_neg (by omega)]

theorem pickAux_spec (oracle : Nat → Nat → Nat) (k : Int) (hk : 0 ≤ k) :
    ∀ (groups : Groups) (g : Nat),
      ∃ sel, pickAux oracle g k groups = some sel ∧
        List.Forall₂ (fun gp sp : OwnerKey × List Issue =>
          sp.1 = gp.1 ∧
          sp.2.length = min k.toNat gp.2.length ∧
          (∀ x ∈ sp.2, x ∈ gp.2) ∧
          (gp.2.length ≤ k.toNat → sp.2.Perm gp.2)) groups sel := by
  intro groups
  induction groups with
  | nil => intro g; exact ⟨[], rfl, List.Forall₂.nil⟩
  | cons gp rest ih =>
    intro g
    obtain ⟨key, items⟩ := gp
    obtain ⟨sel, hsel, hrel⟩ := ih (g + 1)
    have hmin : (min k (items.length : Int)).toNat = min k.toNat items.length := by
      omega
    refine ⟨(key, sampleAux (oracle g) 0 (min k (items.length : Int)).toNat items)
      :: sel, ?_, ?_⟩
    · simp [pickAux, randomSample_min_eq (oracle g) items k hk, hsel]
    · refine List.Forall₂.cons ⟨rfl, ?_, ?_, ?_⟩ hrel
      · show (sampleAux (oracle g) 0 (min k (items.length : Int)).toNat items).length =
          min k.toNat items.length
        rw [sampleAux_length, hmin]
        omega
      · exact fun x hx => sampleAux_mem _ _ _ _ x hx
      · intro hle
        have hle' : items.length ≤ k.toNat := hle
        apply sampleAux_perm
        omega

theorem forall2_fst_eq {R : OwnerKey × List Issue → OwnerKey × List Issue → Prop}
    (hR : ∀ a b, R a b → b.1 = a.1) :
    ∀ {l1 l2 : Groups}, List.Forall₂ R l1 l2 → l2.map Prod.fst = l1.map Prod.fst := by
  intro l1 l2 h
  induction h with
  | nil => rfl
  | cons hab _ ih => simp [ih, hR _ _ hab]

theorem forall2_mem_left {R : OwnerKey × List Issue → OwnerKey × List Issue → Prop} :
    ∀ {l1 l2 : Groups}, List.Forall₂ R l1 l2 → ∀ a ∈ l1, ∃ b ∈ l2, R a b := by
  intro l1 l2 h
  induction h with
  | nil => intro a ha; simp at ha
  | cons hab _ ih =>
    intro a ha
    rcases List.mem_cons.mp ha with rfl | ha'
    · exact ⟨_, List.mem_cons_self _ _, hab⟩
    · obtain ⟨b, hb, hRb⟩ := ih a ha'
      exact ⟨b, List.mem_cons_of_mem _ hb, hRb⟩

theorem pickAux_zero (oracle : Nat → Nat → Nat) :
    ∀ (groups : Groups) (g : Nat),
      pickAux oracle g 0 groups =
        some (groups.map (fun gp => (gp.1, ([] : List Issue)))) := by
  intro groups
  induction groups with
  | nil => intro g; rfl
  | cons gp rest ih =>
    intro g
    obtain ⟨key, items⟩ := gp
    have h0 : randomSample (oracle g) items (min 0 (items.length : Int)) = some [] := by
      unfold randomSample
      rw [if_neg (by omega)]
      have ht : (min 0 (items.length : Int)).toNat = 0 := by omega
      rw [ht]
      rfl
    simp only [pickAux]
    rw [h0, ih (g + 1)]
    rfl

/-- C1: for every group mapping, every random-source oracle and every
bound `k ≥ 0`, `pick_random_per_analyst` succeeds and returns a
selection whose owner identities are exactly those of the input (same
keys, in order), where each owner's selected list has size
`min(k, |group|)` and every selected issue comes from that owner's
group. -/
theorem C1_sampler_domain_and_bound (oracle : Nat → Nat → Nat)
    (groups : Groups) (k : Int) (hk : 0 ≤ k) :
    ∃ sel, pick_random_per_analyst oracle groups k = some sel ∧
      sel.map Prod.fst = groups.map Prod.fst ∧
      List.Forall₂ (fun gp sp : OwnerKey × List Issue =>
        sp.1 = gp.1 ∧ (sp.2.length : Int) = min k (gp.2.length : Int) ∧
        ∀ x ∈ sp.2, x ∈ gp.2) groups sel := by
  obtain ⟨sel, hsel, hrel⟩ := pickAux_spec oracle k hk groups 0
  refine ⟨sel, hsel, forall2_fst_eq (fun a b h => h.1) hrel, ?_⟩
  refine hrel.imp (fun a b h => ⟨h.1, ?_, h.2.2.1⟩)
  have := h.2.1
  omega

/-- C1 witness: bound 1 on a two-issue group, oracle constantly 0. -/
theorem C1_witness : 0 ≤ (1 : Int) ∧
    ∃ sel, pick_random_per_analyst oracleZero
        [(("A1", "Ana"), [issueAna, issueNoName])] 1 = some sel ∧
      sel.map Prod.fst = [(("A1", "Ana"), [issueAna, issueNoName])].map Prod.fst ∧
      List.Forall₂ (fun gp sp : OwnerKey × List Issue =>
        sp.1 = gp.1 ∧ (sp.2.length : Int) = min 1 (gp.2.length : Int) ∧
        ∀ x ∈ sp.2, x ∈ gp.2)
        [(("A1", "Ana"), [issueAna, issueNoName])] sel :=
  ⟨by decide, C1_sampler_domain_and_bound oracleZero
    [(("A1", "Ana"), [issueAna, issueNoName])] 1 (by decide)⟩

/-- C3 counterexample: with the negative bound `-1` and a mapping
holding one nonempty group, the sampler does not return an empty
selection — the underlying `random.sample` call raises `ValueError`
(modelled by `none`). -/
theorem C3_counterexample :
    pick_random_per_analyst oracleZero [(("A1", "Ana"), [issueAna])] (-1) = none := by
  rfl

/-- C3 amended: a bound of exactly 0 yields an empty selection for
every owner without error; a negative bound raises `ValueError` as soon
as the mapping has at least one group. -/
theorem C3_amended_zero_bound (oracle : Nat → Nat → Nat) (groups : Groups) :
    pick_random_per_analyst oracle groups 0 =
      some (groups.map (fun gp => (gp.1, ([] : List Issue)))) ∧
    ∀ k : Int, k < 0 → groups ≠ [] →
      pick_random_per_analyst oracle groups k = none := by
  constructor
  · exact pickAux_zero oracle groups 0
  · intro k hk hne
    match groups, hne with
    | (key, items) :: rest, _ =>
      have hnone : randomSample (oracle 0) items (min k (items.length : Int)) = none := by
        unfold randomSample
        rw [if_pos (Or.inl (by omega))]
      unfold pick_random_per_analyst pickAux
      rw [hnone]

/-- C3 witness: bound 0 succeeds with an empty per-owner selection; the
negative-bound branch is exercised at bound `-2`. -/
theorem C3_witness :
    pick_random_per_analyst oracleZero [(("A1", "Ana"), [issueAna])] 0 =
      some [(("A1", "Ana"), [])] ∧
    pick_random_per_analyst oracleZero [(("A1", "Ana"), [issueAna])] (-2) = none :=
  ⟨(C3_amended_zero_bound oracleZero [(("A1", "Ana"), [issueAna])]).1,
   (C3_amended_zero_bound oracleZero [(("A1", "Ana"), [issueAna])]).2 (-2)
     (by decide) (by decide)⟩

/-- C5 counterexample: a group of two issues with bound 2 is returned
in full but reordered by the random draw (oracle constantly 1), so the
selected list does not equal the group's list. -/
theorem C5_counterexample :
    pick_random_per_analyst oracleOne [(("A1", "Ana"), [issueAna, issueNoName])] 2 =
      some [(("A1", "Ana"), [issueNoName, issueAna])] ∧
    [issueNoName, issueAna] ≠ [issueAna, issueNoName] := by
  constructor
  · rfl
  · decide

/-- C5 amended: for `k ≥ 0`, an owner whose group has at most `k`
issues gets their entire group — as a multiset (the draw may reorder
it). -/
theorem C5_amended_small_group (oracle : Nat → Nat → Nat) (groups : Groups)
    (k : Int) (hk : 0 ≤ k) (key : OwnerKey) (items : List Issue)
    (hmem : (key, items) ∈ groups) (hsize : (items.length : Int) ≤ k) :
    ∃ sel chosen, pick_random_per_analyst oracle groups k = some sel ∧
      (key, chosen) ∈ sel ∧ chosen.Perm items := by
  obtain ⟨sel, hsel, hrel⟩ := pickAux_spec oracle k hk groups 0
  obtain ⟨sp, hspmem, hR⟩ := forall2_mem_left hrel (key, items) hmem
  obtain ⟨a, b⟩ := sp
  obtain ⟨h1, h2, h3, h4⟩ := hR
  simp only at h1
  subst h1
  have hlen : items.length ≤ k.toNat := by omega
  exact ⟨sel, b, hsel, hspmem, h4 hlen⟩

theorem upsert_flatten_perm (gs : Groups) (k : OwnerKey) (i : Issue) :
    (((upsert gs k i).map Prod.snd).flatten).Perm
      ((gs.map Prod.snd).flatten ++ [i]) := by
  induction gs with
  | nil => simp [upsert]
  | cons p rest ih =>
    obtain ⟨k', xs⟩ := p
    by_cases h : k' = k
    · simp only [upsert, if_pos h, List.map_cons, List.flatten_cons, List.append_assoc,
        List.singleton_append]
      exact List.Perm.append_left xs (List.perm_append_singleton i _).symm
    · simp only [upsert, if_neg h, List.map_cons, List.flatten_cons, List.append_assoc]
      exact ih.append_left xs

theorem groupAux_flatten_perm :
    ∀ (issues : List Issue) (acc gs : Groups),
      groupAux acc issues = some gs →
      ((gs.map Prod.snd).flatten).Perm ((acc.map Prod.snd).flatten ++ issues) := by
  intro issues
  induction issues with
  | nil =>
    intro acc gs h
    simp only [groupAux, Option.some.injEq] at h
    simp [← h]
  | cons i rest ih =>
    intro acc gs h
    simp only [groupAux] at h
    match hk : bucketKey i with
    | none => rw [hk] at h; exact absurd h (by simp)
    | some k =>
      rw [hk] at h
      have h1 := ih (upsert acc k i) gs h
      have h2 := (upsert_flatten_perm acc k i).append_right rest
      have h3 := h1.trans h2
      simpa using h3

theorem upsert_buckets_sublist (gs : Groups) (k : OwnerKey) (i : Issue)
    (pre : List Issue) (h : ∀ p ∈ gs, p.2.Sublist pre) :
    ∀ p ∈ upsert gs k i, p.2.Sublist (pre ++ [i]) := by
  induction gs with
  | nil =>
    intro p hp
    simp only [upsert, List.mem_singleton] at hp
    rw [hp]
    exact (List.nil_sublist pre).append (List.Sublist.refl [i])
  | cons q rest ih =>
    obtain ⟨k', xs⟩ := q
    intro p hp
    by_cases hkk : k' = k
    · simp only [upsert, if_pos hkk, List.mem_cons] at hp
      rcases hp with rfl | hp'
      · exact (h (k', xs) (by simp)).append (List.Sublist.refl [i])
      · exact ((h p (List.mem_cons_of_mem _ hp')).trans (List.sublist_append_left pre [i]))
    · simp only [upsert, if_neg hkk, List.mem_cons] at hp
      rcases hp with rfl | hp'
      · exact ((h (k', xs) (by simp)).trans (List.sublist_append_left pre [i]))
      · exact ih (fun r hr => h r (List.mem_cons_of_mem _ hr)) p hp'

theorem groupAux_buckets_sublist :
    ∀ (issues : List Issue) (acc : Groups) (pre : List Issue) (gs : Groups),
      (∀ p ∈ acc, p.2.Sublist pre) →
      groupAux acc issues = some gs →
      ∀ p ∈ gs, p.2.Sublist (pre ++ issues) := by
  intro issues
  induction issues with
  | nil =>
    intro acc pre gs hacc h
    simp only [groupAux, Option.some.injEq] at h
    subst h
    simpa using hacc
  | cons i rest ih =>
    intro acc pre gs hacc h
    simp only [groupAux] at h
    match hk : bucketKey i with
    | none => rw [hk] at h; exact absurd h (by simp)
    | some k =>
      rw [hk] at h
      have hstep := upsert_buckets_sublist acc k i pre hacc
      have := ih (upsert acc k i) (pre ++ [i]) gs hstep h
      intro p hp
      have hres := this p hp
      rwa [List.append_assoc, List.singleton_append] at hres

/-- C2: whenever the Owner Grouper completes on an input list, the
multiset union (flattened concatenation) of all buckets is a
permutation of the input — each issue lands in exactly one bucket, with
no duplication and no loss — and every bucket is a sublist of the
input, so each issue's relative order within its bucket matches its
order in the input. -/
theorem C2_grouper_partition (issues : List Issue) (gs : Groups)
    (h : group_by_assignee issues = some gs) :
    ((gs.map Prod.snd).flatten).Perm issues ∧
    ∀ p ∈ gs, p.2.Sublist issues := by
  constructor
  · have := groupAux_flatten_perm issues [] gs h
    simpa using this
  · have := groupAux_buckets_sublist issues [] [] gs (by simp) h
    simpa using this

/-- C2 witness: a three-issue list (two distinct owners of the same
account plus an unassigned issue) partitions into its buckets. -/
theorem C2_witness :
    group_by_assignee [issueAna, issueNoName, issueUnassigned] =
      some [(("A1", "Ana"), [issueAna]), (("A1", "Desconocido"), [issueNoName]),
            (("UNASSIGNED", "(Sin asignar)"), [issueUnassigned])] ∧
    ((([(("A1", "Ana"), [issueAna]), (("A1", "Desconocido"), [issueNoName]),
        (("UNASSIGNED", "(Sin asignar)"), [issueUnassigned])] : Groups).map
          Prod.snd).flatten).Perm [issueAna, issueNoName, issueUnassigned] ∧
    [issueAna].Sublist [issueAna, issueNoName, issueUnassigned] := by
  have hgroup : group_by_assignee [issueAna, issueNoName, issueUnassigned] =
      some [(("A1", "Ana"), [issueAna]), (("A1", "Desconocido"), [issueNoName]),
            (("UNASSIGNED", "(Sin asignar)"), [issueUnassigned])] := by rfl
  have hmain := C2_grouper_partition [issueAna, issueNoName, issueUnassigned] _ hgroup
  exact ⟨hgroup, hmain.1, hmain.2 (("A1", "Ana"), [issueAna]) (by simp)⟩

/-- C10: the Owner Grouper keys buckets by the pair (accountId,
resolved display name): two issues whose assignees share an accountId
but resolve to different display names land in two distinct buckets. -/
theorem C10_bucket_key_pair (i1 i2 : Issue) (a1 a2 : Assignee) (acct : String)
    (h1 : (fieldsOf i1).assignee = some a1) (h2 : (fieldsOf i2).assignee = some a2)
    (ha1 : a1.accountId = some acct) (ha2 : a2.accountId = some acct)
    (hname : resolvedName a1 ≠ resolvedName a2) :
    group_by_assignee [i1, i2] =
      some [((acct, resolvedName a1), [i1]), ((acct, resolvedName a2), [i2])] := by
  have hb1 : bucketKey i1 = some (acct, resolvedName a1) := by
    simp [bucketKey, h1, ha1]
  have hb2 : bucketKey i2 = some (acct, resolvedName a2) := by
    simp [bucketKey, h2, ha2]
  have hne : ¬ ((acct, resolvedName a1) = (acct, resolvedName a2)) := by
    simp [hname]
  simp [group_by_assignee, groupAux, hb1, hb2, upsert, hne]

theorem strContains_take_here (n rest : String) : strContains (n ++ rest) n :=
  ⟨"", rest, by simp⟩

theorem strContains_left {a : String} (b : String) {n : String}
    (h : strContains a n) : strContains (a ++ b) n := by
  obtain ⟨p, q, hp⟩ := h
  exact ⟨p, q ++ b, by rw [hp]; simp [String.append_assoc]⟩

theorem strContains_right (a : String) {b n : String}
    (h : strContains b n) : strContains (a ++ b) n := by
  obtain ⟨p, q, hp⟩ := h
  exact ⟨a ++ p, q, by rw [hp, String.append_assoc]⟩

theorem foldl_append_init (a b : String) (l : List String) :
    l.foldl (fun r s => r ++ s) (a ++ b) = a ++ l.foldl (fun r s => r ++ s) b := by
  induction l generalizing b with
  | nil => rfl
  | cons x xs ih =>
    simp only [List.foldl_cons]
    rw [String.append_assoc]
    exact ih (b ++ x)

theorem join_cons (x : String) (xs : List String) :
    String.join (x :: xs) = x ++ String.join xs := by
  show xs.foldl (fun r s => r ++ s) ("" ++ x) = x ++ xs.foldl (fun r s => r ++ s) ""
  have h1 : ("" : String) ++ x = x ++ "" := by simp
  rw [h1]
  exact foldl_append_init x "" xs

theorem strContains_join {l : List String} {s n : String} (hs : s ∈ l)
    (h : strContains s n) : strContains (String.join l) n := by
  induction l with
  | nil => simp at hs
  | cons x xs ih =>
    rw [join_cons]
    rcases List.mem_cons.mp hs with rfl | hs'
    · exact strContains_left _ h
    · exact strContains_right _ (ih hs')

theorem escapeChar_no_markup (c : Char) :
    ∀ c' ∈ (escapeChar c).data, c' ≠ '<' ∧ c' ≠ '>' := by
  unfold escapeChar
  split_ifs with h1 h2 h3 h4 h5
  · decide
  · decide
  · decide
  · decide
  · decide
  · intro c' hc'
    simp [String.singleton] at hc'
    subst hc'
    exact ⟨h2, h3⟩

theorem mem_join_data {l : List String} {c : Char}
    (h : c ∈ (String.join l).data) : ∃ s ∈ l, c ∈ s.data := by
  induction l with
  | nil => simp [String.join] at h
  | cons x xs ih =>
    rw [join_cons, String.data_append] at h
    rcases List.mem_append.mp h with h' | h'
    · exact ⟨x, by simp, h'⟩
    · obtain ⟨s, hs, hc⟩ := ih h'
      exact ⟨s, by simp [hs], hc⟩

theorem escape_no_markup (s : String) :
    ∀ c ∈ (escape s).data, c ≠ '<' ∧ c ≠ '>' := by
  intro c hc
  unfold escape at hc
  obtain ⟨t, ht, hct⟩ := mem_join_data hc
  obtain ⟨ch, _, rfl⟩ := List.mem_map.mp ht
  exact escapeChar_no_markup ch c hct

/-- C6: the Statistics Collector returns the pair
(issues with assignee, issues without), and the two counts sum to the
length of the input list. -/
theorem C6_stats_counts (issues : List Issue) :
    (summarize_assignee_stats issues).1 = (issues.filter hasAssignee).length ∧
    (summarize_assignee_stats issues).2 =
      (issues.filter (fun i => ! hasAssignee i)).length ∧
    (summarize_assignee_stats issues).1 + (summarize_assignee_stats issues).2 =
      issues.length := by
  have hc := countP_add_countP_not issues hasAssignee
  have hf := List.countP_eq_length_filter hasAssignee issues
  have hg := List.countP_eq_length_filter (fun i => ! hasAssignee i) issues
  simp only [summarize_assignee_stats]
  refine ⟨hf, ?_, ?_⟩ <;> omega

/-- C7: both renderers sort the selection with the same stable sort
(identical sequence of per-owner blocks), the resulting sequence is in
case-insensitive lexicographic order of display name, and it enumerates
exactly the selection's entries. -/
theorem C7_render_ordering (selection : Groups) :
    sortSelectionHtml selection = sortSelectionConsole selection ∧
    List.Pairwise (fun kv1 kv2 : OwnerKey × List Issue =>
      kv1.1.2.toLower ≤ kv2.1.2.toLower) (sortSelectionHtml selection) ∧
    (sortSelectionHtml selection).Perm selection := by
  refine ⟨rfl, ?_, List.mergeSort_perm selection _⟩
  have htrans : ∀ a b c : OwnerKey × List Issue,
      decide (a.1.2.toLower ≤ b.1.2.toLower) = true →
      decide (b.1.2.toLower ≤ c.1.2.toLower) = true →
      decide (a.1.2.toLower ≤ c.1.2.toLower) = true := by
    intro a b c hab hbc
    rw [decide_eq_true_eq] at *
    exact le_trans hab hbc
  have htotal : ∀ a b : OwnerKey × List Issue,
      (decide (a.1.2.toLower ≤ b.1.2.toLower) ||
        decide (b.1.2.toLower ≤ a.1.2.toLower)) = true := by
    intro a b
    simp only [Bool.or_eq_true, decide_eq_true_eq]
    exact le_total _ _
  have hs := List.sorted_mergeSort htrans htotal selection
  exact hs.imp (fun h => by simpa using h)

/-- C9: the empty issue list flows through the whole pipeline without
error: statistics (0, 0), empty grouping, empty selection for any bound
(even a negative one), an HTML report that is exactly header +
no-issues placeholder + footer (no per-owner blocks), and a console
report that prints its no-issues message and no per-owner lines. -/
theorem C9_empty_input (base date_str : String) (total : Nat)
    (oracle : Nat → Nat → Nat) (k : Int) :
    summarize_assignee_stats [] = (0, 0) ∧
    group_by_assignee [] = some [] ∧
    pick_random_per_analyst oracle [] k = some [] ∧
    build_email_html base date_str [] total =
      htmlHeader date_str total ++ noSelectionMsg ++ htmlFooter ∧
    strContains (build_email_html base date_str [] total) noSelectionMsg ∧
    print_console_summary base [] total =
      ["", "=== Resumen de auditoría (consola) ===",
       "Total de issues resueltos: " ++ toString total,
       "No se encontraron issues con analista asignado para el rango."] := by
  have hhtml : build_email_html base date_str [] total =
      htmlHeader date_str total ++ noSelectionMsg ++ htmlFooter := by
    simp [build_email_html, sortSelectionHtml, String.join]
  refine ⟨rfl, rfl, rfl, hhtml, ?_, ?_⟩
  · exact ⟨htmlHeader date_str total, htmlFooter,
      by rw [hhtml, String.append_assoc]⟩
  · simp [print_console_summary]

/-- C10 witness: one assignee with display name `Ana`, one with the
same account and no display name (resolving to `Desconocido`): the two
issues land in distinct buckets. -/
theorem C10_witness :
    group_by_assignee [issueAna, issueNoName] =
      some [(("A1", "Ana"), [issueAna]), (("A1", "Desconocido"), [issueNoName])] :=
  C10_bucket_key_pair issueAna issueNoName ⟨some "A1", some "Ana"⟩
    ⟨some "A1", none⟩ "A1" (by rfl) (by rfl) (by rfl) (by rfl) (by decide)

theorem strContains_at_end (a n : String) : strContains (a ++ n) n :=
  strContains_right a ⟨"", "", by simp⟩

theorem issueLine_contains_summary (base : String) (issue : Issue) :
    strContains (issueLineHtml base issue)
      (escape ((fieldsOf issue).summary.getD "(sin resumen)")) := by
  simp only [issueLineHtml]
  repeat first
    | exact strContains_at_end _ _
    | apply strContains_left

theorem issueLine_contains_key (base : String) (issue : Issue) :
    strContains (issueLineHtml base issue)
      (escape (issue.key.getD "(sin clave)")) := by
  simp only [issueLineHtml]
  repeat first
    | exact strContains_at_end _ _
    | apply strContains_left

theorem consoleLine_contains_summary (base : String) (issue : Issue) :
    strContains (consoleIssueLine base issue)
      (shortSummary (fieldsOf issue).summary) := by
  simp only [consoleIssueLine]
  repeat first
    | exact strContains_at_end _ _
    | apply strContains_left

theorem ownerBlock_contains_line (base name : String) (items : List Issue)
    (issue : Issue) (h : issue ∈ items) {n : String}
    (hline : strContains (issueLineHtml base issue) n) :
    strContains (ownerBlockHtml base name items) n := by
  simp only [ownerBlockHtml]
  apply strContains_left
  apply strContains_right
  exact strContains_join (List.mem_map_of_mem _ h) hline

theorem ownerBlock_contains_name (base name : String) (items : List Issue) :
    strContains (ownerBlockHtml base name items)
      (escape (if name = "" then "(Sin asignar)" else name)) := by
  simp only [ownerBlockHtml]
  repeat first
    | exact strContains_at_end _ _
    | apply strContains_left

theorem ownerBlock_contains_ol (base name : String) (items : List Issue) :
    strContains (ownerBlockHtml base name items)
      ("<ol style=\"margin:0; padding-left:20px;\">\n") := by
  simp only [ownerBlockHtml]
  repeat first
    | exact strContains_at_end _ _
    | apply strContains_left

theorem build_contains_block (base date_str : String) (selection : Groups)
    (total : Nat) (key : OwnerKey) (items : List Issue)
    (hmem : (key, items) ∈ selection) {n : String}
    (hblock : strContains (ownerBlockHtml base key.2 items) n) :
    strContains (build_email_html base date_str selection total) n := by
  have hmemsorted : (key, items) ∈ sortSelectionHtml selection := by
    unfold sortSelectionHtml
    exact (List.mergeSort_perm selection _).mem_iff.mpr hmem
  simp only [build_email_html]
  apply strContains_left
  apply strContains_right
  exact strContains_join (List.mem_map_of_mem _ hmemsorted) hblock

/-- C8: for every selection, every issue in it has its (possibly
defaulted) summary inserted into the HTML output only through `escape`,
and the owner block's display name likewise; escaped text never
contains the characters that open or close markup tags — so
user-supplied text can never appear as raw markup — while the
document's own structural markup (here the ordered-list tag) is emitted
verbatim, unescaped. -/
theorem C8_html_escaping (base date_str : String) (selection : Groups)
    (total : Nat) (key : OwnerKey) (items : List Issue) (issue : Issue)
    (hmem : (key, items) ∈ selection) (hissue : issue ∈ items) :
    strContains (build_email_html base date_str selection total)
      (escape ((fieldsOf issue).summary.getD "(sin resumen)")) ∧
    strContains (build_email_html base date_str selection total)
      (escape (if key.2 = "" then "(Sin asignar)" else key.2)) ∧
    (∀ s : String, ∀ c ∈ (escape s).data, c ≠ '<' ∧ c ≠ '>') ∧
    strContains (build_email_html base date_str selection total)
      ("<ol style=\"margin:0; padding-left:20px;\">\n") := by
  refine ⟨?_, ?_, fun s => escape_no_markup s, ?_⟩
  · exact build_contains_block base date_str selection total key items hmem
      (ownerBlock_contains_line base key.2 items issue hissue
        (issueLine_contains_summary base issue))
  · exact build_contains_block base date_str selection total key items hmem
      (ownerBlock_contains_name base key.2 items)
  · exact build_contains_block base date_str selection total key items hmem
      (ownerBlock_contains_ol base key.2 items)

/-- C8 witness: a summary holding markup characters appears in the
rendered document in escaped form. -/
theorem C8_witness :
    strContains (build_email_html "http://j" "2026-10-11"
      [(("A1", "Ana"), [issueMarkup])] 1) (escape "<b>&x") :=
  (C8_html_escaping "http://j" "2026-10-11" [(("A1", "Ana"), [issueMarkup])] 1
    ("A1", "Ana") [issueMarkup] issueMarkup (by decide) (by decide)).1

theorem bucketKey_isSome (i : Issue) (h : assigneeWellFormed i = true) :
    (bucketKey i).isSome = true := by
  unfold assigneeWellFormed at h
  cases ha : (fieldsOf i).assignee with
  | none => simp [bucketKey, ha]
  | some a =>
    rw [ha] at h
    simp only at h
    obtain ⟨acct, hacct⟩ := Option.isSome_iff_exists.mp h
    simp [bucketKey, ha, hacct]

theorem groupAux_isSome :
    ∀ (issues : List Issue) (acc : Groups),
      (∀ i ∈ issues, assigneeWellFormed i = true) →
      (groupAux acc issues).isSome = true := by
  intro issues
  induction issues with
  | nil => intro acc _; rfl
  | cons i rest ih =>
    intro acc h
    simp only [groupAux]
    have hb := bucketKey_isSome i (h i (by simp))
    cases hbk : bucketKey i with
    | none => rw [hbk] at hb; simp at hb
    | some k =>
      have hrec := ih (upsert acc k i) (fun j hj => h j (List.mem_cons_of_mem _ hj))
      simp [hbk, hrec]

/-- C4 counterexample: an issue whose assignee object lacks
`accountId` makes the Owner Grouper raise `KeyError` (modelled by
`none`) — a partial assignee record is not degraded to a placeholder. -/
theorem C4_counterexample : group_by_assignee [issueNoAccountId] = none := rfl

/-- C4 amended: provided every present assignee object carries its
`accountId`, the Owner Grouper never raises; and both renderers are
total, substituting the fixed placeholders for a missing key, a missing
summary and a missing assignee display name. -/
theorem C4_amended_no_raise (issues : List Issue)
    (h : ∀ i ∈ issues, assigneeWellFormed i = true) :
    (group_by_assignee issues).isSome = true ∧
    (∀ base i, i.key = none →
      strContains (issueLineHtml base i) (escape "(sin clave)")) ∧
    (∀ base i, (fieldsOf i).summary = none →
      strContains (issueLineHtml base i) (escape "(sin resumen)")) ∧
    (∀ f : Fields, f.assignee = none → issueAssigneeName f = "(Sin asignar)") ∧
    (∀ base i, (fieldsOf i).summary = none →
      strContains (consoleIssueLine base i) "(sin resumen)") := by
  refine ⟨groupAux_isSome issues [] h, ?_, ?_, ?_, ?_⟩
  · intro base i hk
    have hc := issueLine_contains_key base i
    rw [hk] at hc
    exact hc
  · intro base i hs
    have hc := issueLine_contains_summary base i
    rw [hs] at hc
    exact hc
  · intro f hf
    unfold issueAssigneeName
    rw [hf]
  · intro base i hs
    have hc := consoleLine_contains_summary base i
    rw [hs] at hc
    exact hc

/-- C4 witness: a list holding a normal issue and an issue with no key
and no fields at all is grouped without error, and the bare issue
renders with every placeholder. -/
theorem C4_witness :
    (group_by_assignee [issueAna, issueBare]).isSome = true ∧
    strContains (issueLineHtml "http://j" issueBare) (escape "(sin clave)") ∧
    strContains (issueLineHtml "http://j" issueBare) (escape "(sin resumen)") ∧
    issueAssigneeName ⟨none, none⟩ = "(Sin asignar)" ∧
    strContains (consoleIssueLine "http://j" issueBare) "(sin resumen)" := by
  have h := C4_amended_no_raise [issueAna, issueBare] (by decide)
  exact ⟨h.1, h.2.1 "http://j" issueBare rfl, h.2.2.1 "http://j" issueBare rfl,
    h.2.2.2.1 ⟨none, none⟩ rfl, h.2.2.2.2 "http://j" issueBare rfl⟩

/-- C5 witness: a singleton group with bound 2 is fully selected. -/
theorem C5_witness : 0 ≤ (2 : Int) ∧
    (("A1", "Ana"), [issueAna]) ∈ [(("A1", "Ana"), [issueAna])] ∧
    ((([issueAna] : List Issue).length : Int) ≤ 2) ∧
    ∃ sel chosen,
      pick_random_per_analyst oracleZero [(("A1", "Ana"), [issueAna])] 2 = some sel ∧
      (("A1", "Ana"), chosen) ∈ sel ∧ chosen.Perm [issueAna] :=
  ⟨by decide, by decide, by decide,
   C5_amended_small_group oracleZero [(("A1", "Ana"), [issueAna])] 2 (by decide)
     ("A1", "Ana") [issueAna] (by decide) (by decide)⟩

end AutomationJira
